import Mathlib

/-!
A shallow embedding of the SmartDietAgent core (files `agent.py` and
`knowledge_base.py`): BMI computation and weight-status classification,
rule-based diet inference with explanation tracing, priority ranking of
suggestions, heuristic food recommendation, and the rule-catalog overlay
merge.  Python floats are modelled by rationals, Python `None`/missing
dictionary keys by `Option`, Python dictionaries by association lists,
and Python string operations by executable functions on `List Char`.
-/

namespace SmartDiet

/-! ## Rounding (Python `round(x, 1)`): round half to even on rationals -/

/-- Round a rational to the nearest integer, ties to the even integer
(the tie behaviour of Python `round`). -/
def roundHE (q : ℚ) : ℤ :=
  if q - ⌊q⌋ < 1/2 then ⌊q⌋
  else if 1/2 < q - ⌊q⌋ then ⌊q⌋ + 1
  else if 2 ∣ ⌊q⌋ then ⌊q⌋ else ⌊q⌋ + 1

/-- Python `round(x, 1)`: round to one decimal place. -/
def round1 (q : ℚ) : ℚ := (roundHE (10 * q) : ℚ) / 10

/-! ## BMI (`SmartDietAgent.compute_bmi`, `infer_weight_status_from_bmi`) -/

/-- Python `SmartDietAgent.compute_bmi(weight_kg, height_cm)`: `None` (absent)
when an input is missing or the checked quantities are non-positive,
otherwise weight divided by height-in-meters squared, rounded to one
decimal place. -/
def compute_bmi : Option ℚ → Option ℚ → Option ℚ
  | some w, some h =>
    if h / 100 ≤ 0 ∨ w ≤ 0 then none
    else some (round1 (w / (h / 100 * (h / 100))))
  | _, _ => none

/-- Python `SmartDietAgent.infer_weight_status_from_bmi(bmi)`: classify a BMI
value into a weight-status label (18.5 = 37/2, band bounds inclusive
below). -/
def infer_weight_status_from_bmi : Option ℚ → Option String
  | none => none
  | some b =>
    if b < 37/2 then some "Underweight"
    else if b < 25 then some "Normal"
    else some "Overweight"

/-! ## Character-level string operations (Python `str` methods) -/

/-- The characters Python `\s` matches in ASCII (blank, tab, newline,
carriage return, vertical tab, form feed). -/
def isPySpace (c : Char) : Bool :=
  c = ' ' || c = '\t' || c = '\n' || c = '\r' || c = '\x0b' || c = '\x0c'

/-- Python `str.strip()` on the character list of a string. -/
def trimChars (l : List Char) : List Char :=
  ((l.dropWhile isPySpace).reverse.dropWhile isPySpace).reverse

/-- Python `str.lower()` on the character list of a string. -/
def lowerChars (l : List Char) : List Char := l.map Char.toLower

/-- Python string comparison: lexicographic on code points, as a
Boolean `≤` test. -/
def lexLe : List Char → List Char → Bool
  | [], _ => true
  | _ :: _, [] => false
  | a :: as, b :: bs =>
    a.toNat < b.toNat || (a.toNat = b.toNat && lexLe as bs)

/-- The ordering Python uses on suggestion strings and food names. -/
def strLe (a b : String) : Prop := lexLe a.data b.data = true

instance : DecidableRel strLe := fun a b => by
  unfold strLe; infer_instance

end SmartDiet

namespace SmartDiet

/-! ## The Rule Catalog and Priority Table (`knowledge_base.py`) -/

/-- Look a key up in an association-list dictionary of rule lists
(Python `key in rules` / `rules[key]`). -/
def rulesFind (cat : List (String × List String)) (k : String) :
    Option (List String) :=
  (cat.find? (fun e => e.1 == k)).map (fun e => e.2)

/-- The static rule dictionary `rules` of `knowledge_base.py`. -/
def rules : List (String × List String) := [
  ("Diabetic", [
    "Avoid sugar",
    "Include whole grains",
    "Eat more vegetables",
    "Prefer low-glycemic index foods",
    "Distribute carbs evenly across meals"]),
  ("Underweight", [
    "High protein diet",
    "Frequent meals",
    "Include nuts and seeds",
    "Add calorie-dense healthy fats (olive oil, nut butters)"]),
  ("Overweight", [
    "Low-calorie diet",
    "Exercise regularly",
    "Avoid fried foods",
    "Prefer high-fiber, low-calorie density foods",
    "Limit sugary beverages"]),
  ("Vegetarian", [
    "Avoid meat",
    "Include pulses and legumes",
    "Eat more vegetables",
    "Ensure B12 sources (fortified foods or supplements)"]),
  ("NonVegetarian", [
    "Prefer lean meats (chicken, turkey)",
    "Include fish rich in omega-3",
    "Limit processed meats",
    "Balance plate with vegetables and whole grains"]),
  ("Hypertension", [
    "Low salt diet",
    "Avoid processed food",
    "Include fruits and vegetables",
    "Prefer DASH-style diet",
    "Limit alcohol"]),
  ("Normal", [
    "Balanced diet",
    "Include fruits, vegetables, proteins, and carbs",
    "Stay hydrated"]),
  ("Anemia", [
    "Increase iron-rich foods",
    "Include vitamin C for iron absorption",
    "Consider leafy greens",
    "Prefer heme iron sources if non-vegetarian"]),
  ("HighCholesterol", [
    "Prefer unsaturated fats",
    "Increase soluble fiber",
    "Limit red meat",
    "Avoid trans fats",
    "Include plant sterols/stanols"]),
  ("KidneyFriendly", [
    "Control protein intake",
    "Limit sodium",
    "Monitor potassium and phosphorus",
    "Stay within fluid limits if prescribed"])]

/-- The static priority dictionary `CATEGORY_PRIORITY`. -/
def CATEGORY_PRIORITY : List (String × Int) := [
  ("Diabetic", 100),
  ("Hypertension", 95),
  ("HighCholesterol", 90),
  ("KidneyFriendly", 85),
  ("Overweight", 80),
  ("Underweight", 80),
  ("Anemia", 75),
  ("Vegetarian", 60),
  ("NonVegetarian", 60),
  ("Normal", 50)]

/-- Python `CATEGORY_PRIORITY.get(c, 0)`. -/
def priorityGet (c : String) : Int :=
  ((CATEGORY_PRIORITY.find? (fun e => e.1 == c)).map (fun e => e.2)).getD 0

/-! ## The user-attribute record and inference engine (`agent.py`) -/

/-- The user-attribute record (`self.user_profile`).  Absent dictionary
keys and Python `None` are both `none`. -/
structure UserProfile where
  name : Option String := none
  age : Option Int := none
  health_condition : Option String := none
  weight_status : Option String := none
  diet_preference : Option String := none
  weight_kg : Option ℚ := none
  height_cm : Option ℚ := none
  bmi : Option ℚ := none

/-- Python falsiness of an optional string: `None` and `""` are falsy. -/
def optStrFalsy : Option String → Bool
  | none => true
  | some s => s == ""

/-- Python truthiness of an optional number: present and non-zero. -/
def optNumTruthy : Option ℚ → Bool
  | none => false
  | some v => decide (v ≠ 0)

/-- Python `x or d` for optional strings. -/
def pyOr : Option String → String → String
  | none, d => d
  | some s, d => if s = "" then d else s

/-- The BMI back-fill step at the start of both inference methods: when
the recorded weight status is falsy, compute and classify BMI and, if
classification succeeds, write `weight_status` and `bmi` onto the
record.  Returns the updated record and the local `weight_status`
variable used by the subsequent rule lookups. -/
def backfill (p : UserProfile) : UserProfile × Option String :=
  if optStrFalsy p.weight_status then
    let bmi := if optNumTruthy p.weight_kg && optNumTruthy p.height_cm then
        compute_bmi p.weight_kg p.height_cm else none
    match infer_weight_status_from_bmi bmi with
    | some inferred =>
        ({ p with weight_status := some inferred, bmi := bmi }, some inferred)
    | none => (p, p.weight_status)
  else (p, p.weight_status)

/-- Sort a list of strings in Python's ascending order. -/
def sortStr (l : List String) : List String := List.insertionSort strLe l

/-- Python `sorted(set(l))`. -/
def sortedDedup (l : List String) : List String := sortStr l.dedup

/-- Working state of `infer_diet_with_explanations`: the growing
suggestion list and the `source_map` of category labels per
suggestion. -/
abbrev InferState := List String × (String → List String)

/-- One iteration of a rule-application loop: append the suggestion and
add the category label to its explanation set
(`source_map.setdefault(s, set()).add(cat)`). -/
def addSugg (cat : String) (st : InferState) (s : String) : InferState :=
  (st.1 ++ [s],
   fun t =>
     if t = s then (if cat ∈ st.2 s then st.2 s else st.2 s ++ [cat])
     else st.2 t)

/-- One of the three `if <value> in rules:` blocks of
`infer_diet_with_explanations`. -/
def applyCat (cat : List (String × List String)) (c : Option String)
    (st : InferState) : InferState :=
  match c with
  | none => st
  | some c =>
    match rulesFind cat c with
    | some l => l.foldl (addSugg c) st
    | none => st

/-- The rule list a category lookup contributes: empty when the value
is `None` or not a catalog key. -/
def catList (cat : List (String × List String)) : Option String →
    List String
  | none => []
  | some c => (rulesFind cat c).getD []

/-- The working state after the three rule-application blocks of
`infer_diet_with_explanations`. -/
def inferState (cat : List (String × List String)) (p : UserProfile) :
    InferState :=
  applyCat cat p.diet_preference
    (applyCat cat (backfill p).2
      (applyCat cat (some (p.health_condition.getD "Normal"))
        ([], fun _ => [])))

/-- Python `SmartDietAgent.infer_diet_with_explanations`, parameterised by the
rule catalog (the module-global `rules`).  Returns the possibly mutated
profile, the sorted de-duplicated suggestion list and the explanation
dictionary. -/
def infer_diet_with_explanations (cat : List (String × List String))
    (p : UserProfile) :
    UserProfile × List String × List (String × List String) :=
  let pw := backfill p
  let st := inferState cat p
  let sugg := sortedDedup st.1
  (pw.1, sugg, sugg.map (fun s => (s, sortStr (st.2 s))))

/-- The three category values the engine looks up for a record: the
defaulted health condition, the (possibly just inferred) weight status
and the diet preference. -/
def activeCats (p : UserProfile) : List String :=
  p.health_condition.getD "Normal" ::
    ((backfill p).2.toList ++ p.diet_preference.toList)

/-- Python `explanations.get(s, [])`. -/
def explGet (m : List (String × List String)) (s : String) : List String :=
  ((m.find? (fun e => e.1 == s)).map (fun e => e.2)).getD []

/-- Python `max(gen, default=0)` over a list of integers. -/
def maxD : List Int → Int
  | [] => 0
  | x :: xs => xs.foldl max x

/-- The score of a suggestion in `rank_suggestions`: the maximum
category priority over its explanation set, defaulting to 0. -/
def scoreOf (explanations : List (String × List String)) (s : String) : Int :=
  maxD ((explGet explanations s).map priorityGet)

/-- The sort order of `rank_suggestions` (Python key
`(-score(s), s)`). -/
def rankRel (explanations : List (String × List String)) (a b : String) :
    Prop :=
  scoreOf explanations b < scoreOf explanations a ∨
    (scoreOf explanations a = scoreOf explanations b ∧ strLe a b)

instance (explanations : List (String × List String)) :
    DecidableRel (rankRel explanations) := fun a b => by
  unfold rankRel; infer_instance

/-- Python `SmartDietAgent.rank_suggestions`. -/
def rank_suggestions (suggestions : List String)
    (explanations : List (String × List String)) (limit : Option Nat) :
    List String :=
  let ranked := List.insertionSort (rankRel explanations) suggestions
  match limit with
  | some n => ranked.take n
  | none => ranked

/-! ## The food catalog (`knowledge_base.load_foods_csv`) -/

/-- A parsed food record. -/
structure Food where
  name : String
  vegetarian : Bool
  diabetic_friendly : Bool
  hypertension_friendly : Bool
  weight_goal : String
deriving DecidableEq

/-- A raw CSV row: each cell may be absent. -/
structure RawRow where
  name : Option String := none
  vegetarian : Option String := none
  diabetic_friendly : Option String := none
  hypertension_friendly : Option String := none
  weight_goal : Option String := none

/-- Python `str(val)` for an optional cell (`str(None) = "None"`). -/
def pyStr : Option String → String
  | none => "None"
  | some s => s

/-- The inner `to_bool` of `load_foods_csv`:
`str(val).strip().lower() in {"1", "true", "yes", "y"}`. -/
def to_bool (v : Option String) : Bool :=
  let s := lowerChars (trimChars (pyStr v).data)
  s == "1".data || s == "true".data || s == "yes".data || s == "y".data

/-- Parsing of one CSV row inside `load_foods_csv`. -/
def parseRow (r : RawRow) : Food :=
  { name := ⟨trimChars (pyOr r.name "").data⟩
    vegetarian := to_bool r.vegetarian
    diabetic_friendly := to_bool r.diabetic_friendly
    hypertension_friendly := to_bool r.hypertension_friendly
    weight_goal := ⟨lowerChars (trimChars (pyOr r.weight_goal "").data)⟩ }

/-- Python `load_foods_csv`: `none` stands for a missing or unreadable file
(the `not csv_path or not os.path.exists` guard and the
`except: return []` handler), which yields the empty catalog. -/
def load_foods_csv : Option (List RawRow) → List Food
  | none => []
  | some rows => rows.map parseRow

/-! ## The food recommender (`SmartDietAgent.recommend_foods`) -/

/-- The `staple_keywords` list of `recommend_foods`. -/
def staple_keywords : List String :=
  ["idli", "dosa", "upma", "poha", "ragi", "roti", "chapati", "paratha",
   "bajra", "jowar", "khichdi", "dal", "rajma", "chole", "curd", "yogurt",
   "sambar", "rasam", "paneer", "palak", "bhindi", "baingan", "sprout",
   "oats", "brown rice", "millet", "quinoa", "salad", "soup",
   "grilled chicken", "tandoori", "fish", "egg", "lentil", "lentils",
   "whole wheat", "wholegrain", "bread", "bagel"]

/-- Does `pat` occur at the head of `l`? -/
def listStarts : List Char → List Char → Bool
  | [], _ => true
  | _ :: _, [] => false
  | p :: ps, c :: cs => p == c && listStarts ps cs

/-- Does `pat` occur as a contiguous substring of `l`? -/
def hasSubChars (pat : List Char) : List Char → Bool
  | [] => listStarts pat []
  | c :: cs => listStarts pat (c :: cs) || hasSubChars pat cs

/-- The `staple_regex.search(name)` test: some staple keyword occurs in
the name, case-insensitively. -/
def stapleMatch (name : List Char) : Bool :=
  staple_keywords.any (fun k => hasSubChars (lowerChars k.data) (lowerChars name))

/-- The character class `[0-9\s\-()]` of `barcode_like`. -/
def isBarcodeChar (c : Char) : Bool :=
  c.isDigit || isPySpace c || c = '-' || c = '(' || c = ')'

/-- The `barcode_like.match(name)` test: a non-empty name consisting
only of digits, whitespace, hyphens and parentheses. -/
def barcodeLike (name : List Char) : Bool :=
  !name.isEmpty && name.all isBarcodeChar

/-- Python `\w` (ASCII): letters, digits and underscore. -/
def isWordChar (c : Char) : Bool := c.isAlphanum || c = '_'

/-- The unit alternatives of `size_like`. -/
def sizeUnits : List (List Char) :=
  ["ml".data, "l".data, "cl".data, "g".data, "kg".data]

/-- The word boundary `\b` after a unit: end of string or a non-word
character. -/
def boundaryAfter : List Char → Bool
  | [] => true
  | c :: _ => !isWordChar c

/-- Does some size unit (case-insensitive) followed by a word boundary
start here? -/
def unitHere (l : List Char) : Bool :=
  sizeUnits.any (fun u => listStarts u (lowerChars l) && boundaryAfter (l.drop u.length))

/-- Does `\d+\s?(ml|l|cl|g|kg)\b` match starting at this position? -/
def sizeAt (l : List Char) : Bool :=
  let ds := l.takeWhile Char.isDigit
  let rest := l.dropWhile Char.isDigit
  !ds.isEmpty && (unitHere rest ||
    (match rest with
     | c :: cs => isPySpace c && unitHere cs
     | [] => false))

/-- Scan all positions for a `size_like` match, tracking whether the
current position sits at a word boundary. -/
def sizeSearch : Bool → List Char → Bool
  | _, [] => false
  | atBoundary, c :: cs =>
    (atBoundary && sizeAt (c :: cs)) || sizeSearch (!isWordChar c) cs

/-- The `size_like.search(name)` test. -/
def sizeLike (name : List Char) : Bool := sizeSearch true name

/-- The inner `score(food)` of `recommend_foods`, with the
profile-derived parameters explicit. -/
def score_food (diet_pref condition goal : String) (f : Food) : Int :=
  let name := trimChars f.name.data
  (if diet_pref = "Vegetarian" ∧ f.vegetarian = true then 2 else 0) +
  (if condition = "Diabetic" ∧ f.diabetic_friendly = true then 3 else 0) +
  (if condition = "Hypertension" ∧ f.hypertension_friendly = true then 3 else 0) +
  (if goal ≠ "" ∧ f.weight_goal = goal then 2 else 0) +
  (if stapleMatch name then 3 else 0) -
  (if barcodeLike name then 5 else 0) -
  (if sizeLike name then 2 else 0)

/-- The positive additive terms of `score_food` (without the two
demotions). -/
def score_food_bonus (diet_pref condition goal : String) (f : Food) : Int :=
  let name := trimChars f.name.data
  (if diet_pref = "Vegetarian" ∧ f.vegetarian = true then 2 else 0) +
  (if condition = "Diabetic" ∧ f.diabetic_friendly = true then 3 else 0) +
  (if condition = "Hypertension" ∧ f.hypertension_friendly = true then 3 else 0) +
  (if goal ≠ "" ∧ f.weight_goal = goal then 2 else 0) +
  (if stapleMatch name then 3 else 0)

/-- Python `condition = self.user_profile.get("health_condition") or "Normal"`. -/
def condOf (p : UserProfile) : String := pyOr p.health_condition "Normal"

/-- Python `diet_pref = self.user_profile.get("diet_preference") or "Normal"`. -/
def prefOf (p : UserProfile) : String := pyOr p.diet_preference "Normal"

/-- The goal derivation of `recommend_foods`. -/
def goalOf (p : UserProfile) : String :=
  if p.weight_status = some "Overweight" then "loss"
  else if p.weight_status = some "Underweight" then "gain"
  else "maintain"

/-- The score of a food for a given profile. -/
def foodScore (p : UserProfile) (f : Food) : Int :=
  score_food (prefOf p) (condOf p) (goalOf p) f

/-- The sort order of `recommend_foods` (Python key
`(-score(f), f.get("name", ""))`). -/
def foodRel (p : UserProfile) (f g : Food) : Prop :=
  foodScore p g < foodScore p f ∨
    (foodScore p f = foodScore p g ∧ strLe f.name g.name)

instance (p : UserProfile) : DecidableRel (foodRel p) := fun f g => by
  unfold foodRel; infer_instance

/-- The final dedupe loop of `recommend_foods`, with its `break` once
`max_items` names have been appended. -/
def dedupeLoop (max_items : Nat) :
    List (List Char) → List String → List String → List String
  | _, acc, [] => acc.reverse
  | seen, acc, n :: ns =>
    if n = "" then dedupeLoop max_items seen acc ns
    else
      let ln := lowerChars n.data
      if ln ∈ seen then dedupeLoop max_items seen acc ns
      else if max_items ≤ acc.length + 1 then (n :: acc).reverse
      else dedupeLoop max_items (ln :: seen) (n :: acc) ns

/-- Python `SmartDietAgent.recommend_foods`, with the catalog passed in (the
lazily loaded `self.foods_dataset`). -/
def recommend_foods (p : UserProfile) (foods : List Food)
    (max_items : Nat) : List String :=
  if foods.isEmpty then []
  else
    let ranked := List.insertionSort (foodRel p) foods
    let names := (ranked.filter (fun f => 0 < foodScore p f)).map Food.name
    let names := if names.isEmpty then ranked.map Food.name else names
    dedupeLoop max_items [] [] names

/-- Case-insensitive first-seen deduplication, skipping empty names, as
the specification words it: no early break. -/
def dedupeCI : List (List Char) → List String → List String
  | _, [] => []
  | seen, n :: ns =>
    if n = "" ∨ lowerChars n.data ∈ seen then dedupeCI seen ns
    else n :: dedupeCI (lowerChars n.data :: seen) ns

/-- The food-recommendation pipeline exactly as the specification
describes it: score, sort descending with ascending-name ties, keep
positive-score names (falling back to all names), then deduplicate
case-insensitively and truncate to `maxItems`. -/
def recommendFoodsSpec (p : UserProfile) (foods : List Food)
    (maxItems : Nat) : List String :=
  if foods.isEmpty then []
  else
    let ordered := List.insertionSort (foodRel p) foods
    let positive := (ordered.filter (fun f => 0 < foodScore p f)).map Food.name
    let chosen := if positive.isEmpty then ordered.map Food.name else positive
    (dedupeCI [] chosen).take maxItems

/-! ## The rule-catalog overlay merge (`load_additional_rules`) -/

/-- Python `rules[key] = merged` on an insertion-ordered dictionary. -/
def setKey : List (String × List String) → String → List String →
    List (String × List String)
  | [], k, v => [(k, v)]
  | (k', v') :: rest, k, v =>
    if k' = k then (k, v) :: rest else (k', v') :: setKey rest k v

/-- Python `load_additional_rules`, parameterised by the current catalog.  An
overlay entry whose value is `none` stands for a JSON value that is not
a list and is skipped. -/
def load_additional_rules (cat : List (String × List String)) :
    List (String × Option (List String)) → List (String × List String)
  | [] => cat
  | (_, none) :: rest => load_additional_rules cat rest
  | (k, some vs) :: rest =>
    load_additional_rules
      (setKey cat k (sortedDedup ((rulesFind cat k).getD [] ++ vs))) rest

/-! ## Concrete records used by the witnesses -/

/-- A profile with all three categorical attributes set (the end-to-end
example of the specification). -/
def sampleProfile : UserProfile :=
  { health_condition := some "Diabetic", weight_status := some "Overweight",
    diet_preference := some "Vegetarian" }

/-- The record of the specification's end-to-end BMI example. -/
def bmiProfile : UserProfile := { weight_kg := some 50, height_cm := some 180 }

/-- A profile with Diabetic condition and Vegetarian preference. -/
def c8Profile : UserProfile :=
  { health_condition := some "Diabetic", diet_preference := some "Vegetarian" }

/-- A barcode-named food that aligns with `c8Profile`. -/
def vegBarcodeFood : Food :=
  { name := "123-456", vegetarian := true, diabetic_friendly := true,
    hypertension_friendly := false, weight_goal := "maintain" }

/-- A barcode-named food with no alignment at all. -/
def plainBarcodeFood : Food :=
  { name := "123-456", vegetarian := false, diabetic_friendly := false,
    hypertension_friendly := false, weight_goal := "" }

/-- A plain staple food. -/
def dosaFood : Food :=
  { name := "dosa", vegetarian := false, diabetic_friendly := false,
    hypertension_friendly := false, weight_goal := "" }

/-- A profile with no attributes set. -/
def emptyProfile : UserProfile := {}

/-! ## Basic facts about `lexLe` / `strLe` -/

theorem lexLe_total : ∀ a b : List Char, lexLe a b = true ∨ lexLe b a = true
  | [], _ => Or.inl rfl
  | _ :: _, [] => Or.inr rfl
  | a :: as, b :: bs => by
    simp only [lexLe, Bool.or_eq_true, Bool.and_eq_true, decide_eq_true_eq]
    rcases Nat.lt_trichotomy a.toNat b.toNat with h | h | h
    · exact Or.inl (Or.inl h)
    · rcases lexLe_total as bs with ih | ih
      · exact Or.inl (Or.inr ⟨h, ih⟩)
      · exact Or.inr (Or.inr ⟨h.symm, ih⟩)
    · exact Or.inr (Or.inl h)

theorem lexLe_trans : ∀ a b c : List Char,
    lexLe a b = true → lexLe b c = true → lexLe a c = true
  | [], _, _, _, _ => rfl
  | _ :: _, [], _, h, _ => by simp [lexLe] at h
  | _ :: _, _ :: _, [], _, h => by simp [lexLe] at h
  | a :: as, b :: bs, c :: cs, hab, hbc => by
    simp only [lexLe, Bool.or_eq_true, Bool.and_eq_true, decide_eq_true_eq]
      at hab hbc ⊢
    rcases hab with hab | ⟨hab, hab'⟩
    · rcases hbc with hbc | ⟨hbc, _⟩
      · exact Or.inl (by omega)
      · exact Or.inl (by omega)
    · rcases hbc with hbc | ⟨hbc, hbc'⟩
      · exact Or.inl (by omega)
      · exact Or.inr ⟨by omega, lexLe_trans as bs cs hab' hbc'⟩

theorem lexLe_antisymm : ∀ a b : List Char,
    lexLe a b = true → lexLe b a = true → a = b
  | [], [], _, _ => rfl
  | [], _ :: _, _, h => by simp [lexLe] at h
  | _ :: _, [], h, _ => by simp [lexLe] at h
  | a :: as, b :: bs, hab, hba => by
    simp only [lexLe, Bool.or_eq_true, Bool.and_eq_true, decide_eq_true_eq]
      at hab hba
    rcases hab with hab | ⟨hab, hab'⟩
    · rcases hba with hba | ⟨hba, _⟩
      · omega
      · omega
    · rcases hba with hba | ⟨hba, hba'⟩
      · omega
      · have hval : a.val.toNat = b.val.toNat := hab
        have : a = b := Char.eq_of_val_eq (UInt32.ext hval)
        subst this
        rw [lexLe_antisymm as bs hab' hba']

theorem strLe_total (a b : String) : strLe a b ∨ strLe b a := lexLe_total _ _

theorem strLe_trans {a b c : String} (h1 : strLe a b) (h2 : strLe b c) :
    strLe a c := lexLe_trans _ _ _ h1 h2

theorem strLe_antisymm {a b : String} (h1 : strLe a b) (h2 : strLe b a) :
    a = b := by
  cases a; cases b
  exact congrArg String.mk (lexLe_antisymm _ _ h1 h2)

theorem strLe_refl (a : String) : strLe a a := by
  rcases strLe_total a a with h | h <;> exact h

/-! ## Monotonicity of rounding -/

theorem roundHE_le_add_one (q : ℚ) : roundHE q ≤ ⌊q⌋ + 1 := by
  unfold roundHE; split_ifs <;> omega

theorem le_roundHE (q : ℚ) : ⌊q⌋ ≤ roundHE q := by
  unfold roundHE; split_ifs <;> omega

theorem roundHE_mono {a b : ℚ} (hab : a ≤ b) : roundHE a ≤ roundHE b := by
  have hf : ⌊a⌋ ≤ ⌊b⌋ := Int.floor_mono hab
  rcases lt_or_eq_of_le hf with hlt | heq
  · calc roundHE a ≤ ⌊a⌋ + 1 := roundHE_le_add_one a
      _ ≤ ⌊b⌋ := by omega
      _ ≤ roundHE b := le_roundHE b
  · unfold roundHE
    rw [← heq]
    split_ifs with h1 h2 h3 h4 h5 h6 h7 h8 <;>
      first
        | omega
        | (exfalso; linarith)

theorem round1_mono {a b : ℚ} (hab : a ≤ b) : round1 a ≤ round1 b := by
  unfold round1
  have := roundHE_mono (show 10 * a ≤ 10 * b by linarith)
  have hc : ((roundHE (10 * a) : ℚ)) ≤ ((roundHE (10 * b) : ℚ)) :=
    Int.cast_le.2 this
  linarith


theorem sortStr_mem {s : String} {l : List String} :
    s ∈ sortStr l ↔ s ∈ l :=
  (List.perm_insertionSort strLe l).mem_iff

theorem sortStr_sorted (l : List String) : List.Sorted strLe (sortStr l) := by
  haveI : IsTotal String strLe := ⟨strLe_total⟩
  haveI : IsTrans String strLe := ⟨fun _ _ _ => strLe_trans⟩
  exact List.sorted_insertionSort strLe l

theorem sortStr_nodup {l : List String} (h : l.Nodup) : (sortStr l).Nodup :=
  ((List.perm_insertionSort strLe l).nodup_iff).2 h

theorem sortStr_ne_nil {l : List String} (h : l ≠ []) : sortStr l ≠ [] := by
  intro h0
  have hp := List.perm_insertionSort strLe l
  rw [sortStr] at h0
  rw [h0] at hp
  exact h (List.Perm.nil_eq hp).symm

theorem sortedDedup_mem {s : String} {l : List String} :
    s ∈ sortedDedup l ↔ s ∈ l := by
  rw [sortedDedup, sortStr_mem, List.mem_dedup]

theorem sortedDedup_nodup (l : List String) : (sortedDedup l).Nodup :=
  sortStr_nodup (List.nodup_dedup l)

theorem sortedDedup_sorted (l : List String) :
    List.Sorted strLe (sortedDedup l) := sortStr_sorted _

/-- Two sorted duplicate-free string lists with the same members are
equal: sorted-set representations are canonical. -/
theorem sorted_nodup_canonical {l₁ l₂ : List String}
    (s₁ : List.Sorted strLe l₁) (s₂ : List.Sorted strLe l₂)
    (n₁ : l₁.Nodup) (n₂ : l₂.Nodup) (h : ∀ x, x ∈ l₁ ↔ x ∈ l₂) :
    l₁ = l₂ := by
  haveI : IsAntisymm String strLe := ⟨fun _ _ => strLe_antisymm⟩
  exact List.eq_of_perm_of_sorted ((List.perm_ext_iff_of_nodup n₁ n₂).2 h) s₁ s₂

/-! ## Behaviour of the rule-application state -/

theorem foldl_addSugg_fst (cat : String) :
    ∀ (l : List String) (st : InferState),
      (l.foldl (addSugg cat) st).1 = st.1 ++ l
  | [], st => by simp
  | s :: ls, st => by
    rw [List.foldl_cons, foldl_addSugg_fst cat ls (addSugg cat st s)]
    simp [addSugg]

theorem foldl_addSugg_snd (cat : String) :
    ∀ (l : List String) (st : InferState) (t : String),
      (l.foldl (addSugg cat) st).2 t =
        if t ∈ l then
          (if cat ∈ st.2 t then st.2 t else st.2 t ++ [cat])
        else st.2 t
  | [], st, t => by simp
  | s :: ls, st, t => by
    rw [List.foldl_cons, foldl_addSugg_snd cat ls (addSugg cat st s) t]
    by_cases hts : t = s
    · subst hts
      by_cases hc : cat ∈ st.2 t
      · simp [addSugg, hc]
      · by_cases htl : t ∈ ls
        · simp [addSugg, hc, htl]
        · simp [addSugg, hc, htl]
    · by_cases htl : t ∈ ls
      · simp [addSugg, hts, htl, Ne.symm hts]
      · simp [addSugg, hts, htl, Ne.symm hts]

theorem applyCat_fst (cat : List (String × List String)) (c : Option String)
    (st : InferState) : (applyCat cat c st).1 = st.1 ++ catList cat c := by
  match c with
  | none => simp [applyCat, catList]
  | some c =>
    simp only [applyCat, catList]
    match hf : rulesFind cat c with
    | none => simp
    | some l => simp [foldl_addSugg_fst]

theorem applyCat_snd_mono (cat : List (String × List String))
    (c : Option String) (st : InferState) (x t : String)
    (h : x ∈ st.2 t) : x ∈ (applyCat cat c st).2 t := by
  match c with
  | none => exact h
  | some c =>
    simp only [applyCat]
    match hf : rulesFind cat c with
    | none => exact h
    | some l =>
      rw [foldl_addSugg_snd]
      split_ifs with h1 h2
      · exact h
      · exact List.mem_append_left _ h
      · exact h

theorem applyCat_snd_adds (cat : List (String × List String)) (c : String)
    (l : List String) (st : InferState) (s : String)
    (hf : rulesFind cat c = some l) (hs : s ∈ l) :
    c ∈ (applyCat cat (some c) st).2 s := by
  simp only [applyCat, hf]
  rw [foldl_addSugg_snd]
  rw [if_pos hs]
  split_ifs with h1
  · exact h1
  · exact List.mem_append_right _ (List.mem_singleton_self c)

theorem applyCat_snd_nodup (cat : List (String × List String))
    (c : Option String) (st : InferState)
    (h : ∀ t, (st.2 t).Nodup) (t : String) :
    ((applyCat cat c st).2 t).Nodup := by
  match c with
  | none => exact h t
  | some c =>
    simp only [applyCat]
    match hf : rulesFind cat c with
    | none => exact h t
    | some l =>
      rw [foldl_addSugg_snd]
      split_ifs with h1 h2
      · exact h t
      · rw [← List.concat_eq_append]
        exact List.Nodup.concat h2 (h t)
      · exact h t

theorem applyCat_snd_ne_nil (cat : List (String × List String))
    (c : Option String) (st : InferState) (s : String)
    (h : s ∈ catList cat c) : (applyCat cat c st).2 s ≠ [] := by
  match c with
  | none => simp [catList] at h
  | some c =>
    simp only [catList] at h
    match hf : rulesFind cat c with
    | none => rw [hf] at h; simp at h
    | some l =>
      rw [hf] at h
      simp only [Option.getD_some] at h
      have := applyCat_snd_adds cat c l st s hf h
      exact fun h0 => by rw [h0] at this; exact List.not_mem_nil _ this

theorem applyCat_snd_ne_nil_mono (cat : List (String × List String))
    (c : Option String) (st : InferState) (s : String)
    (h : st.2 s ≠ []) : (applyCat cat c st).2 s ≠ [] := by
  match hm : st.2 s with
  | [] => exact absurd hm h
  | x :: xs =>
    have hx : x ∈ st.2 s := by rw [hm]; exact List.mem_cons_self x xs
    have := applyCat_snd_mono cat c st x s hx
    exact fun h0 => by rw [h0] at this; exact List.not_mem_nil _ this

/-! ## The accumulated inference state -/

theorem inferState_fst (cat : List (String × List String))
    (p : UserProfile) :
    (inferState cat p).1 =
      catList cat (some (p.health_condition.getD "Normal")) ++
        catList cat (backfill p).2 ++ catList cat p.diet_preference := by
  simp [inferState, applyCat_fst]

theorem inferState_mem_of_active {cat : List (String × List String)}
    {p : UserProfile} {c : String} {l : List String} {s : String}
    (hc : c ∈ activeCats p) (hf : rulesFind cat c = some l) (hs : s ∈ l) :
    s ∈ (inferState cat p).1 ∧ c ∈ (inferState cat p).2 s := by
  have hcl : catList cat (some c) = l := by simp [catList, hf]
  rcases List.mem_cons.1 hc with hceq | hctail
  · constructor
    · rw [inferState_fst, ← hceq, hcl]
      exact List.mem_append_left _ (List.mem_append_left _ hs)
    · show c ∈ (applyCat cat p.diet_preference
        (applyCat cat (backfill p).2
          (applyCat cat (some (p.health_condition.getD "Normal"))
            ([], fun _ => [])))).2 s
      apply applyCat_snd_mono
      apply applyCat_snd_mono
      rw [← hceq]
      exact applyCat_snd_adds cat c l _ s hf hs
  · rcases List.mem_append.1 hctail with hws | hdp
    · have hws' : (backfill p).2 = some c := by
        cases hb : (backfill p).2 with
        | none => rw [hb] at hws; simp at hws
        | some w =>
          rw [hb] at hws; simp at hws; rw [hws]
      constructor
      · rw [inferState_fst, hws', hcl]
        exact List.mem_append_left _ (List.mem_append_right _ hs)
      · show c ∈ (applyCat cat p.diet_preference
          (applyCat cat (backfill p).2 _)).2 s
        apply applyCat_snd_mono
        rw [hws']
        exact applyCat_snd_adds cat c l _ s hf hs
    · have hdp' : p.diet_preference = some c := by
        cases hb : p.diet_preference with
        | none => rw [hb] at hdp; simp at hdp
        | some w =>
          rw [hb] at hdp; simp at hdp; rw [hdp]
      constructor
      · rw [inferState_fst, hdp', hcl]
        exact List.mem_append_right _ hs
      · show c ∈ (applyCat cat p.diet_preference _).2 s
        rw [hdp']
        exact applyCat_snd_adds cat c l _ s hf hs

theorem inferState_smap_ne_nil {cat : List (String × List String)}
    {p : UserProfile} {s : String}
    (h : s ∈ (inferState cat p).1) : (inferState cat p).2 s ≠ [] := by
  rw [inferState_fst] at h
  show (applyCat cat p.diet_preference
    (applyCat cat (backfill p).2
      (applyCat cat (some (p.health_condition.getD "Normal"))
        ([], fun _ => [])))).2 s ≠ []
  rcases List.mem_append.1 h with h12 | h3
  · rcases List.mem_append.1 h12 with h1 | h2
    · apply applyCat_snd_ne_nil_mono
      apply applyCat_snd_ne_nil_mono
      exact applyCat_snd_ne_nil _ _ _ _ h1
    · apply applyCat_snd_ne_nil_mono
      exact applyCat_snd_ne_nil _ _ _ _ h2
  · exact applyCat_snd_ne_nil _ _ _ _ h3

theorem inferState_smap_nodup (cat : List (String × List String))
    (p : UserProfile) (t : String) : ((inferState cat p).2 t).Nodup := by
  show ((applyCat cat p.diet_preference
    (applyCat cat (backfill p).2
      (applyCat cat (some (p.health_condition.getD "Normal"))
        ([], fun _ => [])))).2 t).Nodup
  apply applyCat_snd_nodup
  intro u
  apply applyCat_snd_nodup
  intro v
  apply applyCat_snd_nodup
  intro w
  exact List.nodup_nil

/-! ## Looking up the explanation dictionary -/

theorem find_map_self {f : String → List String} :
    ∀ {l : List String} {s : String}, s ∈ l →
      (l.map (fun t => (t, f t))).find? (fun e => e.1 == s) = some (s, f s)
  | [], s, h => absurd h (List.not_mem_nil s)
  | a :: l, s, h => by
    by_cases has : a = s
    · subst has
      simp [List.find?]
    · have hs : s ∈ l := by
        rcases List.mem_cons.1 h with h0 | h0
        · exact absurd h0.symm has
        · exact h0
      have hbeq : (a == s) = false := by
        simp [has]
      simp only [List.map_cons, List.find?, hbeq]
      exact find_map_self hs

theorem explGet_map_self {f : String → List String} {l : List String}
    {s : String} (h : s ∈ l) :
    explGet (l.map (fun t => (t, f t))) s = f s := by
  rw [explGet, find_map_self h]
  rfl


/-- C1: for every user-attribute record, and for each of its three
category values (health condition, possibly-inferred weight status, diet
preference) that is a key of the rule catalog, every suggestion in that
category's rule list appears in the suggestion output of
`infer_diet_with_explanations`, and that suggestion's explanation set
contains that category label (hence a suggestion produced by two of the
categories carries both labels). -/
theorem infer_explanations_complete (cat : List (String × List String))
    (p : UserProfile) (c : String) (l : List String) (s : String)
    (hc : c ∈ activeCats p) (hf : rulesFind cat c = some l) (hs : s ∈ l) :
    s ∈ (infer_diet_with_explanations cat p).2.1 ∧
      c ∈ explGet (infer_diet_with_explanations cat p).2.2 s := by
  have h := inferState_mem_of_active hc hf hs
  have hsugg : s ∈ sortedDedup (inferState cat p).1 := sortedDedup_mem.2 h.1
  constructor
  · exact hsugg
  · show c ∈ explGet ((sortedDedup (inferState cat p).1).map
      (fun t => (t, sortStr ((inferState cat p).2 t)))) s
    rw [explGet_map_self hsugg]
    exact sortStr_mem.2 h.2

/-- Witness for C1 at the sample profile: the Diabetic rule
"Avoid sugar" appears, explained by "Diabetic". -/
theorem infer_explanations_complete_witness :
    "Avoid sugar" ∈ (infer_diet_with_explanations rules sampleProfile).2.1 ∧
      "Diabetic" ∈
        explGet (infer_diet_with_explanations rules sampleProfile).2.2
          "Avoid sugar" :=
  infer_explanations_complete rules sampleProfile "Diabetic"
    ["Avoid sugar", "Include whole grains", "Eat more vegetables",
     "Prefer low-glycemic index foods",
     "Distribute carbs evenly across meals"] "Avoid sugar"
    (by decide) (by decide) (by decide)

/-- C10: the suggestion output of `infer_diet_with_explanations` is a
duplicate-free list sorted in ascending alphabetical (code-point) order,
the explanation dictionary's keys are exactly the suggestions in order,
and every explanation value is a nonempty, duplicate-free, sorted list
of category labels. -/
theorem infer_output_canonical (cat : List (String × List String))
    (p : UserProfile) :
    (infer_diet_with_explanations cat p).2.1.Nodup ∧
    List.Sorted strLe (infer_diet_with_explanations cat p).2.1 ∧
    (infer_diet_with_explanations cat p).2.2.map Prod.fst =
      (infer_diet_with_explanations cat p).2.1 ∧
    ∀ e ∈ (infer_diet_with_explanations cat p).2.2,
      e.2 ≠ [] ∧ e.2.Nodup ∧ List.Sorted strLe e.2 := by
  refine ⟨sortedDedup_nodup _, sortedDedup_sorted _, ?_, ?_⟩
  · show ((sortedDedup (inferState cat p).1).map
      (fun t => (t, sortStr ((inferState cat p).2 t)))).map Prod.fst =
        sortedDedup (inferState cat p).1
    rw [List.map_map]
    exact List.map_id _
  · intro e he
    rcases List.mem_map.1 he with ⟨s, hs, rfl⟩
    exact ⟨sortStr_ne_nil (inferState_smap_ne_nil (sortedDedup_mem.1 hs)),
      sortStr_nodup (inferState_smap_nodup cat p s), sortStr_sorted _⟩

/-- Witness for C10 at the sample profile, evaluated at one concrete
explanation entry. -/
theorem infer_output_canonical_witness :
    (["Diabetic", "Vegetarian"] : List String) ≠ [] ∧
      (["Diabetic", "Vegetarian"] : List String).Nodup ∧
      List.Sorted strLe ["Diabetic", "Vegetarian"] :=
  (infer_output_canonical rules sampleProfile).2.2.2
    ("Eat more vegetables", ["Diabetic", "Vegetarian"]) (by decide)

/-! ## Ranking (C2) -/

theorem rankRel_total (expl : List (String × List String)) (a b : String) :
    rankRel expl a b ∨ rankRel expl b a := by
  unfold rankRel
  rcases lt_trichotomy (scoreOf expl a) (scoreOf expl b) with h | h | h
  · exact Or.inr (Or.inl h)
  · rcases strLe_total a b with hs | hs
    · exact Or.inl (Or.inr ⟨h, hs⟩)
    · exact Or.inr (Or.inr ⟨h.symm, hs⟩)
  · exact Or.inl (Or.inl h)

theorem rankRel_trans (expl : List (String × List String))
    {a b c : String} (h1 : rankRel expl a b) (h2 : rankRel expl b c) :
    rankRel expl a c := by
  unfold rankRel at h1 h2 ⊢
  rcases h1 with h1 | ⟨h1, h1'⟩
  · rcases h2 with h2 | ⟨h2, _⟩
    · exact Or.inl (lt_trans h2 h1)
    · exact Or.inl (by rw [← h2]; exact h1)
  · rcases h2 with h2 | ⟨h2, h2'⟩
    · exact Or.inl (by rw [h1]; exact h2)
    · exact Or.inr ⟨h1.trans h2, strLe_trans h1' h2'⟩

/-- C2: `rank_suggestions` sorts by descending score with ascending
alphabetical tie-break (`rankRel`), permutes its input, truncates to
`limit` when given, and scores empty/missing explanation sets (and
categories absent from the priority table) as 0.  Determinism holds
because the function is pure. -/
theorem rank_suggestions_spec :
    (∀ sugg expl, List.Sorted (rankRel expl)
      (rank_suggestions sugg expl none)) ∧
    (∀ sugg expl, List.Perm (rank_suggestions sugg expl none) sugg) ∧
    (∀ sugg expl n, rank_suggestions sugg expl (some n) =
      (rank_suggestions sugg expl none).take n) ∧
    (∀ expl s, explGet expl s = [] → scoreOf expl s = 0) ∧
    (∀ c, CATEGORY_PRIORITY.find? (fun e => e.1 == c) = none →
      priorityGet c = 0) := by
  refine ⟨?_, ?_, fun sugg expl n => rfl, ?_, ?_⟩
  · intro sugg expl
    haveI : IsTotal String (rankRel expl) := ⟨rankRel_total expl⟩
    haveI : IsTrans String (rankRel expl) :=
      ⟨fun _ _ _ => rankRel_trans expl⟩
    exact List.sorted_insertionSort _ _
  · intro sugg expl
    exact List.perm_insertionSort _ _
  · intro expl s h
    rw [scoreOf, h]
    rfl
  · intro c h
    rw [priorityGet, h]
    rfl

/-- Witness for C2: a concrete truncation and a concrete empty-score
evaluation. -/
theorem rank_suggestions_spec_witness :
    rank_suggestions ["b", "a"] [] (some 1) =
      (rank_suggestions ["b", "a"] [] none).take 1 ∧
      scoreOf [] "x" = 0 :=
  ⟨rank_suggestions_spec.2.2.1 ["b", "a"] [] 1,
   rank_suggestions_spec.2.2.2.1 [] "x" (by decide)⟩

/-! ## BMI evaluation helpers (shared by C5, C7, C9) -/

theorem compute_bmi_nonpos (w h : ℚ) (hwh : w ≤ 0 ∨ h ≤ 0) :
    compute_bmi (some w) (some h) = none := by
  have hcond : h / 100 ≤ 0 ∨ w ≤ 0 := by
    rcases hwh with hw | hh
    · exact Or.inr hw
    · exact Or.inl (div_nonpos_iff.2 (Or.inr ⟨hh, by norm_num⟩))
  simp only [compute_bmi]
  rw [if_pos hcond]

theorem compute_bmi_pos (w h : ℚ) (hw : 0 < w) (hh : 0 < h) :
    compute_bmi (some w) (some h) =
      some (round1 (w / (h / 100 * (h / 100)))) := by
  have hcond : ¬ (h / 100 ≤ 0 ∨ w ≤ 0) := by
    push_neg
    exact ⟨div_pos hh (by norm_num), hw⟩
  simp only [compute_bmi]
  rw [if_neg hcond]

/-! ## C3: the BMI classifier bands -/

/-- C3: `infer_weight_status_from_bmi` is absent on an absent BMI,
"Underweight" below 18.5, "Normal" on [18.5, 25), "Overweight" on
[25, ∞), with the stated boundary values. -/
theorem classify_weight_status_spec :
    infer_weight_status_from_bmi none = none ∧
    (∀ b : ℚ, b < 37/2 →
      infer_weight_status_from_bmi (some b) = some "Underweight") ∧
    (∀ b : ℚ, 37/2 ≤ b → b < 25 →
      infer_weight_status_from_bmi (some b) = some "Normal") ∧
    (∀ b : ℚ, 25 ≤ b →
      infer_weight_status_from_bmi (some b) = some "Overweight") ∧
    infer_weight_status_from_bmi (some (37/2)) = some "Normal" ∧
    infer_weight_status_from_bmi (some 25) = some "Overweight" ∧
    infer_weight_status_from_bmi (some (1849/100)) = some "Underweight" := by
  refine ⟨rfl, ?_, ?_, ?_, ?_, ?_, ?_⟩
  · intro b hb
    simp only [infer_weight_status_from_bmi]
    rw [if_pos hb]
  · intro b hb1 hb2
    simp only [infer_weight_status_from_bmi]
    rw [if_neg (not_lt.2 hb1), if_pos hb2]
  · intro b hb
    simp only [infer_weight_status_from_bmi]
    rw [if_neg (not_lt.2 (by linarith)), if_neg (not_lt.2 hb)]
  · simp only [infer_weight_status_from_bmi]
    rw [if_neg (by norm_num), if_pos (by norm_num)]
  · simp only [infer_weight_status_from_bmi]
    rw [if_neg (by norm_num), if_neg (by norm_num)]
  · simp only [infer_weight_status_from_bmi]
    rw [if_pos (by norm_num)]

/-- Witness for C3 at BMI 10. -/
theorem classify_weight_status_spec_witness :
    infer_weight_status_from_bmi (some 10) = some "Underweight" :=
  classify_weight_status_spec.2.1 10 (by norm_num)

/-! ## C7: soft failure of the public operations -/

/-- C7: `compute_bmi` never fails: it returns absent on missing or
non-positive inputs and the rounded quotient otherwise; loading the food
catalog from a missing or unreadable file returns the empty catalog. -/
theorem error_handling_spec :
    (∀ o, compute_bmi none o = none) ∧
    (∀ o, compute_bmi o none = none) ∧
    (∀ w h : ℚ, w ≤ 0 ∨ h ≤ 0 → compute_bmi (some w) (some h) = none) ∧
    (∀ w h : ℚ, 0 < w → 0 < h →
      compute_bmi (some w) (some h) =
        some (round1 (w / (h / 100 * (h / 100))))) ∧
    load_foods_csv none = [] := by
  refine ⟨fun o => rfl, ?_, compute_bmi_nonpos, compute_bmi_pos, rfl⟩
  intro o
  cases o <;> rfl

/-- Witness for C7 at a negative weight. -/
theorem error_handling_spec_witness :
    compute_bmi (some (-1)) (some 180) = none :=
  error_handling_spec.2.2.1 (-1) 180 (Or.inl (by norm_num))

/-! ## C9: monotonicity of `compute_bmi` -/

/-- C9: for positive inputs, the rounded BMI is monotonically
non-decreasing in weight at fixed height and non-increasing in height at
fixed weight (strict monotonicity is impossible after rounding to one
decimal place). -/
theorem compute_bmi_monotone :
    (∀ w1 w2 h : ℚ, 0 < w1 → w1 ≤ w2 → 0 < h →
      ∃ b1 b2, compute_bmi (some w1) (some h) = some b1 ∧
        compute_bmi (some w2) (some h) = some b2 ∧ b1 ≤ b2) ∧
    (∀ w h1 h2 : ℚ, 0 < w → 0 < h1 → h1 ≤ h2 →
      ∃ b1 b2, compute_bmi (some w) (some h1) = some b1 ∧
        compute_bmi (some w) (some h2) = some b2 ∧ b2 ≤ b1) := by
  constructor
  · intro w1 w2 h hw1 hw12 hh
    have hk : 0 < h / 100 * (h / 100) := by positivity
    refine ⟨_, _, compute_bmi_pos w1 h hw1 hh,
      compute_bmi_pos w2 h (lt_of_lt_of_le hw1 hw12) hh, ?_⟩
    exact round1_mono ((div_le_div_right hk).2 hw12)
  · intro w h1 h2 hw hh1 hh12
    have hh2 : 0 < h2 := lt_of_lt_of_le hh1 hh12
    have hk1 : 0 < h1 / 100 * (h1 / 100) := by positivity
    have hk2 : 0 < h2 / 100 * (h2 / 100) := by positivity
    refine ⟨_, _, compute_bmi_pos w h1 hw hh1,
      compute_bmi_pos w h2 hw hh2, ?_⟩
    apply round1_mono
    rw [div_le_div_left hw hk2 hk1]
    have hd : h1 / 100 ≤ h2 / 100 := by linarith
    exact mul_le_mul hd hd (by positivity) (by positivity)

/-- Witness for C9 at weights 50 ≤ 60, height 180. -/
theorem compute_bmi_monotone_witness :
    ∃ b1 b2, compute_bmi (some 50) (some 180) = some b1 ∧
      compute_bmi (some 60) (some 180) = some b2 ∧ b1 ≤ b2 :=
  compute_bmi_monotone.1 50 60 180 (by norm_num) (by norm_num) (by norm_num)

/-! ## C5: the BMI back-fill side effect -/


theorem backfill_writes {p : UserProfile} {w h : ℚ}
    (hws : p.weight_status = none) (hw : p.weight_kg = some w)
    (hh : p.height_cm = some h) (h0w : 0 < w) (h0h : 0 < h) :
    ∃ b lbl, compute_bmi (some w) (some h) = some b ∧
      infer_weight_status_from_bmi (some b) = some lbl ∧
      backfill p =
        ({ p with weight_status := some lbl, bmi := some b }, some lbl) := by
  have hb := compute_bmi_pos w h h0w h0h
  have hlbl : ∃ lbl, infer_weight_status_from_bmi
      (some (round1 (w / (h / 100 * (h / 100))))) = some lbl := by
    simp only [infer_weight_status_from_bmi]
    split_ifs <;> exact ⟨_, rfl⟩
  obtain ⟨lbl, hlbl⟩ := hlbl
  refine ⟨_, lbl, hb, hlbl, ?_⟩
  have htw : optNumTruthy (some w) = true := by
    simp [optNumTruthy]; exact ne_of_gt h0w
  have hth : optNumTruthy (some h) = true := by
    simp [optNumTruthy]; exact ne_of_gt h0h
  unfold backfill
  rw [hws, hw, hh, htw, hth]
  simp only [optStrFalsy, Bool.and_self, if_true, hb, hlbl]

theorem backfill_keeps {p : UserProfile} {s : String}
    (h : p.weight_status = some s) (hne : s ≠ "") :
    backfill p = (p, some s) := by
  have hf : optStrFalsy p.weight_status = false := by
    rw [h]; simp [optStrFalsy, hne]
  unfold backfill
  rw [hf]
  simp [h]

theorem compute_bmi_50_180 : compute_bmi (some 50) (some 180) =
    some (77/5) := by
  rw [compute_bmi_pos 50 180 (by norm_num) (by norm_num)]
  have h1 : ((50:ℚ) / (180/100 * (180/100))) = 1250/81 := by norm_num
  rw [h1]
  have hf : ⌊(10 * (1250/81 : ℚ))⌋ = 154 := by
    rw [Int.floor_eq_iff]
    constructor
    · push_cast; norm_num
    · push_cast; norm_num
  have hr : roundHE (10 * (1250/81 : ℚ)) = 154 := by
    unfold roundHE
    rw [hf]
    rw [if_pos (by push_cast; norm_num)]
  rw [round1, hr]
  norm_num

theorem classify_77_5 : infer_weight_status_from_bmi (some (77/5)) =
    some "Underweight" := by
  simp only [infer_weight_status_from_bmi]
  rw [if_pos (by norm_num)]

/-- C5: when `weight_status` is absent and positive weight and height
are present, one inference call computes the BMI, classifies it, and
writes both onto the record, leaving every other field unchanged; a
truthy `weight_status` already on the record is never overwritten; and
the record `{weight_kg := 50, height_cm := 180}` gains BMI 15.4 = 77/5
and status "Underweight". -/
theorem infer_mutation_spec :
    (∀ (cat : List (String × List String)) (p : UserProfile) (w h : ℚ),
      p.weight_status = none → p.weight_kg = some w →
      p.height_cm = some h → 0 < w → 0 < h →
      ∃ b lbl, compute_bmi (some w) (some h) = some b ∧
        infer_weight_status_from_bmi (some b) = some lbl ∧
        (infer_diet_with_explanations cat p).1 =
          { p with weight_status := some lbl, bmi := some b }) ∧
    (∀ (cat : List (String × List String)) (p : UserProfile) (s : String),
      p.weight_status = some s → s ≠ "" →
      (infer_diet_with_explanations cat p).1 = p) ∧
    ((infer_diet_with_explanations rules bmiProfile).1.bmi = some (77/5) ∧
      (infer_diet_with_explanations rules bmiProfile).1.weight_status =
        some "Underweight" ∧
      (infer_diet_with_explanations rules bmiProfile).1.weight_kg =
        some 50 ∧
      (infer_diet_with_explanations rules bmiProfile).1.height_cm =
        some 180) := by
  have hfst : ∀ (cat : List (String × List String)) (p : UserProfile),
      (infer_diet_with_explanations cat p).1 = (backfill p).1 :=
    fun cat p => rfl
  refine ⟨?_, ?_, ?_⟩
  · intro cat p w h hws hw hh h0w h0h
    obtain ⟨b, lbl, hb, hlbl, hback⟩ := backfill_writes hws hw hh h0w h0h
    exact ⟨b, lbl, hb, hlbl, by rw [hfst, hback]⟩
  · intro cat p s hs hne
    rw [hfst, backfill_keeps hs hne]
  · obtain ⟨b, lbl, hb, hlbl, hback⟩ :=
      backfill_writes (p := bmiProfile) rfl rfl rfl
        (by norm_num) (by norm_num)
    have hbv : b = 77/5 := by
      rw [compute_bmi_50_180] at hb
      exact (Option.some_inj.1 hb).symm
    subst hbv
    have hlv : lbl = "Underweight" := by
      rw [classify_77_5] at hlbl
      exact (Option.some_inj.1 hlbl).symm
    subst hlv
    rw [hfst, hback]
    exact ⟨rfl, rfl, rfl, rfl⟩

/-- Witness for C5: the general write-back applied to the example
record. -/
theorem infer_mutation_spec_witness :
    ∃ b lbl, compute_bmi (some 50) (some 180) = some b ∧
      infer_weight_status_from_bmi (some b) = some lbl ∧
      (infer_diet_with_explanations rules bmiProfile).1 =
        { bmiProfile with weight_status := some lbl, bmi := some b } :=
  infer_mutation_spec.1 rules bmiProfile 50 180 rfl rfl rfl
    (by norm_num) (by norm_num)

/-! ## C4: the recommendation pipeline equals its specification -/

theorem dedupeLoop_eq :
    ∀ (ns : List String) (seen : List (List Char)) (acc : List String)
      (m : Nat), acc.length < m →
      dedupeLoop m seen acc ns =
        acc.reverse ++ (dedupeCI seen ns).take (m - acc.length)
  | [], seen, acc, m, _ => by simp [dedupeLoop, dedupeCI]
  | n :: ns, seen, acc, m, hlt => by
    by_cases hn : n = ""
    · simp only [dedupeLoop, dedupeCI]
      rw [if_pos hn, if_pos (Or.inl hn)]
      exact dedupeLoop_eq ns seen acc m hlt
    · by_cases hmem : lowerChars n.data ∈ seen
      · simp only [dedupeLoop, dedupeCI]
        rw [if_neg hn, if_pos hmem,
          if_pos (Or.inr hmem : n = "" ∨ lowerChars n.data ∈ seen)]
        exact dedupeLoop_eq ns seen acc m hlt
      · simp only [dedupeLoop, dedupeCI]
        rw [if_neg hn, if_neg hmem,
          if_neg (show ¬ (n = "" ∨ lowerChars n.data ∈ seen) by
            rintro (h | h); exact hn h; exact hmem h)]
        by_cases hstop : m ≤ acc.length + 1
        · rw [if_pos hstop]
          have hm1 : m - acc.length = 0 + 1 := by omega
          rw [hm1, List.take_succ_cons, List.take_zero, List.reverse_cons]
        · rw [if_neg hstop]
          rw [dedupeLoop_eq ns (lowerChars n.data :: seen) (n :: acc) m
            (by simp only [List.length_cons]; omega)]
          simp only [List.length_cons]
          have hm1 : m - acc.length = (m - (acc.length + 1)) + 1 := by omega
          rw [hm1, List.take_succ_cons, List.reverse_cons,
            List.append_assoc]
          rfl

/-- C4: `recommend_foods` returns exactly the pipeline the
specification describes: additive scoring, sort by descending score
with ascending-name ties, positive-score names with full fallback, then
case-insensitive first-seen deduplication truncated to `maxItems`. -/
theorem recommend_foods_spec_eq (p : UserProfile) (foods : List Food)
    (m : Nat) (hm : 0 < m) (hf : foods ≠ []) :
    recommend_foods p foods m = recommendFoodsSpec p foods m := by
  simp only [recommend_foods, recommendFoodsSpec]
  rw [dedupeLoop_eq _ [] [] m (by simpa using hm)]
  simp


/-- Witness for C4 at a concrete profile and catalog. -/
theorem recommend_foods_spec_eq_witness :
    recommend_foods c8Profile [vegBarcodeFood, dosaFood] 6 =
      recommendFoodsSpec c8Profile [vegBarcodeFood, dosaFood] 6 :=
  recommend_foods_spec_eq c8Profile [vegBarcodeFood, dosaFood] 6
    (by decide) (List.cons_ne_nil _ _)

/-! ## C8: the barcode demotion -/

theorem dedupeLoop_mem {m : Nat} :
    ∀ (ns : List String) (seen : List (List Char)) (acc : List String)
      (x : String), x ∈ dedupeLoop m seen acc ns → x ∈ acc ∨ x ∈ ns
  | [], _, acc, x, h => by
    simp only [dedupeLoop, List.mem_reverse] at h
    exact Or.inl h
  | n :: ns, seen, acc, x, h => by
    simp only [dedupeLoop] at h
    split_ifs at h with h1 h2 h3
    · rcases dedupeLoop_mem ns seen acc x h with h0 | h0
      · exact Or.inl h0
      · exact Or.inr (List.mem_cons_of_mem n h0)
    · rcases dedupeLoop_mem ns seen acc x h with h0 | h0
      · exact Or.inl h0
      · exact Or.inr (List.mem_cons_of_mem n h0)
    · rw [List.mem_reverse] at h
      rcases List.mem_cons.1 h with h0 | h0
      · exact Or.inr (h0 ▸ List.mem_cons_self n ns)
      · exact Or.inl h0
    · rcases dedupeLoop_mem ns _ (n :: acc) x h with h0 | h0
      · rcases List.mem_cons.1 h0 with h1 | h1
        · exact Or.inr (h1 ▸ List.mem_cons_self n ns)
        · exact Or.inl h1
      · exact Or.inr (List.mem_cons_of_mem n h0)

/-- Counterexample to C8 as stated: with a Diabetic Vegetarian profile,
a food named "123-456" that is vegetarian, diabetic-friendly and
goal-aligned scores 2 + 3 + 2 - 5 = 2 > 0, so at least one food scores
positively and yet "123-456" appears in the output. -/
theorem barcode_demotion_counterexample :
    (∃ g ∈ [vegBarcodeFood], 0 < foodScore c8Profile g) ∧
      "123-456" ∈ recommend_foods c8Profile [vegBarcodeFood] 6 := by
  decide

/-- C8 (amended): a food named "123-456" scores at most its positive
additive terms minus 5, and the name is excluded from the output
whenever some food scores positively and every record carrying that
name scores non-positively. -/
theorem barcode_demotion_spec :
    (∀ (p : UserProfile) (f : Food), f.name = "123-456" →
      foodScore p f ≤
        score_food_bonus (prefOf p) (condOf p) (goalOf p) f - 5) ∧
    (∀ (p : UserProfile) (foods : List Food) (m : Nat),
      (∃ g ∈ foods, 0 < foodScore p g) →
      (∀ g ∈ foods, g.name = "123-456" → foodScore p g ≤ 0) →
      "123-456" ∉ recommend_foods p foods m) := by
  constructor
  · intro p f hname
    simp only [foodScore, score_food, score_food_bonus]
    rw [hname]
    have hbar : barcodeLike (trimChars ("123-456" : String).data) = true := by
      decide
    split_ifs <;> first | omega | simp_all
  · rintro p foods m ⟨g, hg, hgs⟩ hbar hmem
    simp only [recommend_foods] at hmem
    have hfe : foods.isEmpty = false := by
      cases foods with
      | nil => cases hg
      | cons a l => rfl
    rw [if_neg (by simp [hfe])] at hmem
    have hgr : g ∈ List.insertionSort (foodRel p) foods :=
      (List.perm_insertionSort (foodRel p) foods).mem_iff.2 hg
    have hgn : g.name ∈ ((List.insertionSort (foodRel p) foods).filter
        (fun f => 0 < foodScore p f)).map Food.name :=
      List.mem_map_of_mem _ (List.mem_filter.2 ⟨hgr, by simpa using hgs⟩)
    have hnn : (((List.insertionSort (foodRel p) foods).filter
        (fun f => 0 < foodScore p f)).map Food.name).isEmpty = false := by
      cases hnm : ((List.insertionSort (foodRel p) foods).filter
          (fun f => 0 < foodScore p f)).map Food.name with
      | nil => rw [hnm] at hgn; cases hgn
      | cons a l => rfl
    rw [if_neg (by simp [hnn])] at hmem
    rcases dedupeLoop_mem _ [] [] _ hmem with h0 | hM
    · cases h0
    · rcases List.mem_map.1 hM with ⟨f', hf', hfn⟩
      have hfp := List.mem_filter.1 hf'
      have hf'foods : f' ∈ foods :=
        (List.perm_insertionSort (foodRel p) foods).mem_iff.1 hfp.1
      have hscore : 0 < foodScore p f' := by simpa using hfp.2
      have := hbar f' hf'foods hfn
      omega

/-- Witness for C8 (amended), with a positively scoring staple beside a
valueless barcode food. -/
theorem barcode_demotion_spec_witness :
    "123-456" ∉ recommend_foods emptyProfile [plainBarcodeFood, dosaFood] 6 :=
  barcode_demotion_spec.2 emptyProfile [plainBarcodeFood, dosaFood] 6
    ⟨dosaFood, by decide, by decide⟩ (by decide)

/-! ## C6: the overlay merge -/

theorem rulesFind_setKey :
    ∀ (cat : List (String × List String)) (k : String) (v : List String)
      (k' : String),
      rulesFind (setKey cat k v) k' =
        if k' = k then some v else rulesFind cat k'
  | [], k, v, k' => by
    by_cases h : k' = k
    · subst h
      simp [setKey, rulesFind, List.find?]
    · have hb : (k == k') = false := beq_eq_false_iff_ne.2 (Ne.symm h)
      simp [setKey, rulesFind, List.find?, hb, h]
  | (a, b) :: rest, k, v, k' => by
    by_cases hak : a = k
    · subst hak
      simp only [setKey, if_pos rfl]
      by_cases hk : k' = a
      · subst hk
        simp [rulesFind, List.find?]
      · have hb : (a == k') = false := beq_eq_false_iff_ne.2 (Ne.symm hk)
        simp [rulesFind, List.find?, hb, hk]
    · simp only [setKey, if_neg hak]
      by_cases hab : a = k'
      · subst hab
        have hk : ¬ a = k := hak
        simp [rulesFind, List.find?, fun h => hk h]
      · have hb : (a == k') = false := beq_eq_false_iff_ne.2 hab
        simp only [rulesFind, List.find?, hb]
        have := rulesFind_setKey rest k v k'
        simp only [rulesFind] at this
        exact this

theorem setKey_of_find :
    ∀ (cat : List (String × List String)) (k : String) (v : List String),
      rulesFind cat k = some v → setKey cat k v = cat
  | [], k, v, h => by simp [rulesFind] at h
  | (a, b) :: rest, k, v, h => by
    by_cases hak : a = k
    · subst hak
      have : b = v := by
        simp [rulesFind, List.find?] at h
        exact h
      subst this
      simp [setKey]
    · have hax : (a == k) = false := by
        simp only [beq_eq_false_iff_ne]
        exact hak
      simp only [rulesFind, List.find?, hax] at h
      simp only [setKey, if_neg hak]
      rw [setKey_of_find rest k v h]

theorem load_subset :
    ∀ (ov : List (String × Option (List String)))
      (cat : List (String × List String)) (k x : String),
      x ∈ (rulesFind cat k).getD [] →
      x ∈ (rulesFind (load_additional_rules cat ov) k).getD []
  | [], _, _, _, h => h
  | (_, none) :: rest, cat, k, x, h => load_subset rest cat k x h
  | (k', some vs) :: rest, cat, k, x, h => by
    apply load_subset rest
    rw [rulesFind_setKey]
    by_cases hk : k = k'
    · subst hk
      rw [if_pos rfl, Option.getD_some]
      exact sortedDedup_mem.2 (List.mem_append_left _ h)
    · rw [if_neg hk]
      exact h

theorem load_preserves :
    ∀ (ov : List (String × Option (List String)))
      (cat : List (String × List String)) (k : String) (L : List String),
      rulesFind cat k = some L → List.Sorted strLe L → L.Nodup →
      ∃ L', rulesFind (load_additional_rules cat ov) k = some L' ∧
        List.Sorted strLe L' ∧ L'.Nodup ∧ L ⊆ L'
  | [], _, _, L, hf, hs, hn => ⟨L, hf, hs, hn, fun _ hx => hx⟩
  | (_, none) :: rest, cat, k, L, hf, hs, hn =>
    load_preserves rest cat k L hf hs hn
  | (k', some vs) :: rest, cat, k, L, hf, hs, hn => by
    by_cases hk : k = k'
    · subst hk
      have hget : (rulesFind cat k).getD [] = L := by rw [hf]; rfl
      have hfind : rulesFind
          (setKey cat k (sortedDedup ((rulesFind cat k).getD [] ++ vs))) k =
          some (sortedDedup (L ++ vs)) := by
        rw [rulesFind_setKey, if_pos rfl, hget]
      obtain ⟨L', h1, h2, h3, h4⟩ := load_preserves rest _ k _ hfind
        (sortedDedup_sorted _) (sortedDedup_nodup _)
      exact ⟨L', h1, h2, h3, fun x hx =>
        h4 (sortedDedup_mem.2 (List.mem_append_left _ hx))⟩
    · have hfind : rulesFind
          (setKey cat k' (sortedDedup ((rulesFind cat k').getD [] ++ vs))) k =
          some L := by
        rw [rulesFind_setKey, if_neg hk]
        exact hf
      exact load_preserves rest _ k L hfind hs hn

theorem load_fixed :
    ∀ (ov : List (String × Option (List String)))
      (cat : List (String × List String)),
      (∀ k vs, (k, some vs) ∈ ov → ∃ L, rulesFind cat k = some L ∧
        List.Sorted strLe L ∧ L.Nodup ∧ vs ⊆ L) →
      load_additional_rules cat ov = cat
  | [], _, _ => rfl
  | (k', none) :: rest, cat, h =>
    load_fixed rest cat (fun k vs hm => h k vs (List.mem_cons_of_mem _ hm))
  | (k', some vs') :: rest, cat, h => by
    obtain ⟨L, hf, hs, hn, hsub⟩ := h k' vs' (List.mem_cons_self _ _)
    have hget : (rulesFind cat k').getD [] = L := by rw [hf]; rfl
    have hu : sortedDedup ((rulesFind cat k').getD [] ++ vs') = L := by
      rw [hget]
      apply sorted_nodup_canonical (sortedDedup_sorted _) hs
        (sortedDedup_nodup _) hn
      intro x
      rw [sortedDedup_mem, List.mem_append]
      constructor
      · rintro (hx | hx)
        · exact hx
        · exact hsub hx
      · exact Or.inl
    show load_additional_rules
      (setKey cat k' (sortedDedup ((rulesFind cat k').getD [] ++ vs')))
      rest = cat
    rw [hu, setKey_of_find cat k' L hf]
    exact load_fixed rest cat
      (fun k vs hm => h k vs (List.mem_cons_of_mem _ hm))

theorem load_absorbs :
    ∀ (ov : List (String × Option (List String)))
      (cat : List (String × List String)) (k : String) (vs : List String),
      (k, some vs) ∈ ov →
      ∃ L, rulesFind (load_additional_rules cat ov) k = some L ∧
        List.Sorted strLe L ∧ L.Nodup ∧ vs ⊆ L
  | [], _, _, _, h => absurd h (List.not_mem_nil _)
  | (k', none) :: rest, cat, k, vs, h => by
    rcases List.mem_cons.1 h with h0 | h0
    · exact absurd (congrArg Prod.snd h0) (by simp)
    · exact load_absorbs rest cat k vs h0
  | (k', some vs') :: rest, cat, k, vs, h => by
    rcases List.mem_cons.1 h with h0 | h0
    · have hk : k = k' := congrArg Prod.fst h0
      have hv : vs = vs' := by
        have := congrArg Prod.snd h0
        simpa using this
      subst hk
      subst hv
      have hfind : rulesFind
          (setKey cat k (sortedDedup ((rulesFind cat k).getD [] ++ vs))) k =
          some (sortedDedup ((rulesFind cat k).getD [] ++ vs)) := by
        rw [rulesFind_setKey, if_pos rfl]
      obtain ⟨L', h1, h2, h3, h4⟩ := load_preserves rest _ k _ hfind
        (sortedDedup_sorted _) (sortedDedup_nodup _)
      exact ⟨L', h1, h2, h3, fun x hx =>
        h4 (sortedDedup_mem.2 (List.mem_append_right _ hx))⟩
    · exact load_absorbs rest _ k vs h0

/-- C6: merging an overlay replaces each valid category by the sorted
de-duplicated union of old and new entries, never shrinks any category's
rule list, is idempotent, and skips malformed (non-list) entries without
failing the rest of the merge. -/
theorem overlay_merge_spec :
    (∀ cat (k : String) (vs : List String),
      rulesFind (load_additional_rules cat [(k, some vs)]) k =
        some (sortedDedup ((rulesFind cat k).getD [] ++ vs))) ∧
    (∀ cat ov (k x : String), x ∈ (rulesFind cat k).getD [] →
      x ∈ (rulesFind (load_additional_rules cat ov) k).getD []) ∧
    (∀ cat ov, load_additional_rules (load_additional_rules cat ov) ov =
      load_additional_rules cat ov) ∧
    (∀ cat (k : String) (rest : List (String × Option (List String))),
      load_additional_rules cat ((k, none) :: rest) =
        load_additional_rules cat rest) := by
  refine ⟨?_, fun cat ov k x h => load_subset ov cat k x h, ?_,
    fun cat k rest => rfl⟩
  · intro cat k vs
    show rulesFind
      (setKey cat k (sortedDedup ((rulesFind cat k).getD [] ++ vs))) k = _
    rw [rulesFind_setKey, if_pos rfl]
  · intro cat ov
    exact load_fixed ov _ (fun k vs hm => load_absorbs ov cat k vs hm)

/-- Witness for C6: a pre-merge Diabetic rule survives a concrete
overlay merge. -/
theorem overlay_merge_spec_witness :
    "Avoid sugar" ∈ (rulesFind
      (load_additional_rules rules [("Diabetic", some ["Zz rule"])])
      "Diabetic").getD [] :=
  overlay_merge_spec.2.1 rules [("Diabetic", some ["Zz rule"])]
    "Diabetic" "Avoid sugar" (by decide)

end SmartDiet
